import Mathlib

/-!
Shallow embedding of `src/annovate.py` (the Annovate metadata record store).

Strings are modelled as `List Char`.  Python `datetime` values are modelled
as natural numbers; `datetime.isoformat` is modelled by a decimal digit
encoding `isoformat` and `datetime.fromisoformat` by the corresponding
parser `fromisoformat` (faithful in the properties that matter here: the
encoding is injective, contains neither the sentinel nor a newline, and
`fromisoformat` inverts it while rejecting non-encodings).

Python dicts are modelled as association lists that preserve insertion
order, exactly as Python dicts do: `pyGet`, `pySet` and `pySetdefault`
mirror `d.get(k)`, `d[k] = v` and `d.setdefault(k, dflt)`.

The file system is modelled by `FS`: the contents of the single record file
(`none` when the file is absent) plus a flag saying whether the file can be
opened for appending.  Reading is always possible when the file exists.
-/

abbrev Filename := List Char

deriving instance DecidableEq for Except

/-- Dataclass to store a value and a time when that value was assigned. -/
structure DatedValue where
  value : List Char
  time : Nat
deriving DecidableEq

/-- A collection of key-value pairs that is associated with a file or
directory at a given time. -/
structure MetaInformation where
  filename : Filename
  time : Nat
  properties : List (List Char × List Char)
deriving DecidableEq

/-- Python `d.get(k)`: value of the first matching key (keys are unique). -/
def pyGet {β : Type} : List (List Char × β) → List Char → Option β
  | [], _ => none
  | (k', v) :: rest, k => if k = k' then some v else pyGet rest k

/-- Python `d[k] = v`: update the binding in place, keeping its position,
or append a new binding at the end. -/
def pySet {β : Type} : List (List Char × β) → List Char → β → List (List Char × β)
  | [], k, v => [(k, v)]
  | (k', v') :: rest, k, v =>
    if k = k' then (k', v) :: rest else (k', v') :: pySet rest k v

/-- Python `d.setdefault(k, dflt)`: append a binding to `dflt` at the end
when `k` is absent, otherwise leave the dict unchanged. -/
def pySetdefault {β : Type} : List (List Char × β) → List Char → β → List (List Char × β)
  | [], k, dflt => [(k, dflt)]
  | (k', v') :: rest, k, dflt =>
    if k = k' then (k', v') :: rest else (k', v') :: pySetdefault rest k dflt

/-- Apply `f` to the value stored under `k`, keeping its position.  This
models mutation through the alias that `d.setdefault` returns. -/
def updateValue {β : Type} (f : β → β) : List (List Char × β) → List Char → List (List Char × β)
  | [], _ => []
  | (k', v') :: rest, k =>
    if k = k' then (k', f v') :: rest else (k', v') :: updateValue f rest k

abbrev Data := List (Filename × List (List Char × DatedValue))

/-- `current_dict[key] = DatedValue(value, file_time)` where `current_dict`
is `data[name]`. -/
def dictSetAt (d : Data) (name : Filename) (key : List Char) (dv : DatedValue) : Data :=
  updateValue (fun props => pySet props key dv) d name

/-- Decimal digit characters. -/
def digitChar (d : Nat) : Char := Char.ofNat (48 + d)

def charDigit (c : Char) : Nat := c.toNat - 48

/-- Model of `datetime.isoformat`: the decimal encoding of the timestamp. -/
def isoformat (t : Nat) : List Char :=
  if t = 0 then ['0'] else ((Nat.digits 10 t).reverse).map digitChar

/-- Model of `datetime.fromisoformat`: parses the decimal encodings produced
by `isoformat` and fails on anything else. -/
def fromisoformat (cs : List Char) : Option Nat :=
  if cs ≠ [] ∧ cs.all (fun c => c.isDigit) then
    some (Nat.ofDigits 10 ((cs.map charDigit).reverse))
  else none

/-- Python `s.split(sep)` for a one-character separator. -/
def splitOnChar (sep : Char) : List Char → List (List Char)
  | [] => [[]]
  | c :: cs =>
    match splitOnChar sep cs with
    | [] => [[]]
    | r :: rs => if c = sep then [] :: r :: rs else (c :: r) :: rs

/-- Split at the first occurrence of `sep`, if any. -/
def breakAtChar (sep : Char) : List Char → Option (List Char × List Char)
  | [] => none
  | c :: cs =>
    if c = sep then some ([], cs)
    else
      match breakAtChar sep cs with
      | none => none
      | some (a, b) => some (c :: a, b)

/-- Python `s.split(sep, maxsplit=1)`. -/
def pySplit1 (sep : Char) (cs : List Char) : List (List Char) :=
  match breakAtChar sep cs with
  | some (a, b) => [a, b]
  | none => [cs]

/-- Python's line iteration over a file, with the `rstrip` of the trailing
newline already applied to each line: there is no empty final line when the
contents end in a newline. -/
def pyLinesAux : List Char → List Char → List (List Char)
  | acc, [] => if acc = [] then [] else [acc.reverse]
  | acc, c :: cs =>
    if c = '\n' then acc.reverse :: pyLinesAux [] cs else pyLinesAux (c :: acc) cs

def pyLines (cs : List Char) : List (List Char) := pyLinesAux [] cs

/-- The loop state of the parser in `MetaFile.__init__`: the data read so
far, the name of the current object (`current_dict` points at its dict)
and the current `file_time`. -/
structure LoadState where
  data : Data
  current : Option Filename
  file_time : Option Nat
deriving DecidableEq

def errHeaderArity : String := "values to unpack in header"

def errBadIso : String := "Invalid isoformat string"

def errNoEquals : String := "not enough values to unpack"

def errNoHeader : String := "Meta file is not starting with a @"

/-- One iteration of the parsing loop in `MetaFile.__init__`. -/
def loadLine (st : LoadState) (line : List Char) : Except String LoadState :=
  if line.head? = some '@' then
    match splitOnChar '@' (line.drop 1) with
    | [file_key, time] =>
      let data := pySetdefault st.data file_key []
      match fromisoformat time with
      | some t => .ok ⟨data, some file_key, some t⟩
      | none => .error errBadIso
    | _ => .error errHeaderArity
  else
    match pySplit1 '=' line with
    | [key, value] =>
      match st.current, st.file_time with
      | some cur, some t =>
        .ok ⟨dictSetAt st.data cur key ⟨value, t⟩, st.current, st.file_time⟩
      | _, _ => .error errNoHeader
    | _ => .error errNoEquals

/-- The parsing loop of `MetaFile.__init__`. -/
def loadList : LoadState → List (List Char) → Except String LoadState
  | st, [] => .ok st
  | st, l :: ls =>
    match loadLine st l with
    | .ok st' => loadList st' ls
    | .error e => .error e

def load (ls : List (List Char)) : Except String Data :=
  match loadList ⟨[], none, none⟩ ls with
  | .ok st => .ok st.data
  | .error e => .error e

structure FS where
  contents : Option (List Char)
  appendable : Bool
deriving DecidableEq

structure MetaFile where
  data : Data
  new_information : List MetaInformation
deriving DecidableEq

/-- Model of `MetaFile.__init__`: read the record file when it exists; when
it is absent start from an empty mapping. -/
def MetaFile.init (fs : FS) : Except String MetaFile :=
  match fs.contents with
  | none => .ok ⟨[], []⟩
  | some c =>
    match load (pyLines c) with
    | .ok d => .ok ⟨d, []⟩
    | .error e => .error e

/-- Construction as a state transformer on the file system (it only reads,
so the file system component is returned unchanged). -/
def initOp (fs : FS) : Except String MetaFile × FS := (MetaFile.init fs, fs)

/-- The text `MetaFile.write` emits for one `MetaInformation`: one header
line, then one property line per key. -/
def serializeInfo (info : MetaInformation) : List Char :=
  ('@' :: info.filename) ++ ('@' :: isoformat info.time) ++ ['\n']
    ++ (info.properties.map (fun kv => kv.1 ++ '=' :: kv.2 ++ ['\n'])).flatten

def serializeAll (infos : List MetaInformation) : List Char :=
  (infos.map serializeInfo).flatten

def errOpenAppend : String := "cannot open the meta file for appending"

/-- Model of `MetaFile.write`: when something is pending, open the record
file for appending (failing there raises before anything is mutated) and
append every pending batch; afterwards clear `new_information`.  The result
is the outcome together with the `MetaFile` object and the file system as
they stand after the call. -/
def MetaFile.write (fs : FS) (m : MetaFile) : Except String Unit × MetaFile × FS :=
  if m.new_information = [] then
    (.ok (), { m with new_information := [] }, fs)
  else if fs.appendable then
    (.ok (),
     { m with new_information := [] },
     { fs with contents := some ((fs.contents.getD []) ++ serializeAll m.new_information) })
  else
    (.error errOpenAppend, m, fs)

/-- Model of `MetaFile.add_information`. -/
def MetaFile.add_information (m : MetaFile) (info : MetaInformation) : MetaFile :=
  { data := info.properties.foldl
      (fun d kv => dictSetAt d info.filename kv.1 ⟨kv.2, info.time⟩)
      (pySetdefault m.data info.filename []),
    new_information := m.new_information ++ [info] }

/-- Model of `MetaFile.get`. -/
def MetaFile.get (m : MetaFile) (filename : Filename) (key : List Char) : Option DatedValue :=
  match pyGet m.data filename with
  | some file_data => pyGet file_data key
  | none => none

/-- Model of `MetaFile.files`. -/
def MetaFile.files (m : MetaFile) : List Filename := m.data.map Prod.fst

/-- What the `get` action of `main` passes to `print` for one item:
`meta.get(obj.name, item) or args.default`, which is the `DatedValue`
itself when the lookup hits (a dataclass instance is always truthy) and
the default string when the lookup misses. -/
def mainGetOutput (m : MetaFile) (name item dflt : List Char) : Sum DatedValue (List Char) :=
  match MetaFile.get m name item with
  | some dv => Sum.inl dv
  | none => Sum.inr dflt

/-- The `(file, value)` pairs printed by the `list` action of `main`. -/
def mainList (m : MetaFile) (dflt : List Char) : List (Filename × List Char) :=
  (MetaFile.files m).map (fun file =>
    (file,
      match MetaFile.get m file ("description".data) with
      | some description => description.value
      | none => dflt))

theorem pyGet_pySetdefault_self {β : Type} (d : List (List Char × β)) (k : List Char) (dflt : β) :
    pyGet (pySetdefault d k dflt) k = some ((pyGet d k).getD dflt) := by
  induction d with
  | nil => simp [pyGet, pySetdefault]
  | cons hd tl ih =>
    obtain ⟨k', v'⟩ := hd
    by_cases h : k = k'
    · simp [pyGet, pySetdefault, h]
    · simp [pyGet, pySetdefault, h, ih]

theorem mem_map_fst_pySetdefault {β : Type} (d : List (List Char × β)) (k : List Char) (dflt : β) :
    k ∈ (pySetdefault d k dflt).map Prod.fst := by
  induction d with
  | nil => simp [pySetdefault]
  | cons hd tl ih =>
    obtain ⟨k', v'⟩ := hd
    by_cases h : k = k'
    · subst h
      have hre : pySetdefault ((k, v') :: tl) k dflt = (k, v') :: tl := by
        simp [pySetdefault]
      rw [hre, List.map_cons]
      exact List.mem_cons_self _ _
    · simp only [pySetdefault, if_neg h, List.map_cons, List.mem_cons]
      exact Or.inr ih

/-- C4: construction never touches the file system (the returned file system
is the input one), and when the record file is absent the store starts with
an empty entries mapping, without creating the file. -/
theorem init_readonly (fs : FS) :
    (initOp fs).2 = fs
    ∧ (fs.contents = none → (initOp fs).1 = Except.ok ⟨[], []⟩) :=
  ⟨rfl, fun h => by simp [initOp, MetaFile.init, h]⟩

/-- C4 witness: the absent-file case at a concrete file system. -/
theorem init_readonly_witness :
    (initOp ⟨none, true⟩).2 = (⟨none, true⟩ : FS)
    ∧ ((⟨none, true⟩ : FS).contents = none → (initOp ⟨none, true⟩).1 = Except.ok ⟨[], []⟩) :=
  init_readonly ⟨none, true⟩

/-- C5: the claim (and the module docstring's example, get plot.png
infra_correction printing 8.2) says the get action yields the stored value
string.  The code computes `meta.get(obj.name, item) or args.default`, and a
`DatedValue` dataclass instance is always truthy, so when the lookup hits,
the `DatedValue` object itself (whose repr, not the bare value, is printed)
is produced instead of the value string; on a miss the default is produced
and nothing is raised. -/
theorem mainGet_prints_dataclass :
    mainGetOutput ⟨[("plot.png".data, [("infra_correction".data, ⟨"8.2".data, 5⟩)])], []⟩
        ("plot.png".data) ("infra_correction".data) ("dflt".data)
      = Sum.inl ⟨"8.2".data, 5⟩
    ∧ (Sum.inl (⟨"8.2".data, 5⟩ : DatedValue) : Sum DatedValue (List Char)) ≠ Sum.inr ("8.2".data)
    ∧ mainGetOutput ⟨[("plot.png".data, [("infra_correction".data, ⟨"8.2".data, 5⟩)])], []⟩
        ("unknown".data) ("anyKey".data) ("foo".data) = Sum.inr ("foo".data) := by
  refine ⟨by decide, by decide, by decide⟩

/-- C6: when the record file cannot be opened for appending and something is
pending, write surfaces the I/O error and leaves both the pending batches
and the durable record exactly as they were. -/
theorem write_error_keeps_pending (fs : FS) (m : MetaFile)
    (happ : fs.appendable = false) (hpend : m.new_information ≠ []) :
    MetaFile.write fs m = (Except.error errOpenAppend, m, fs) := by
  simp [MetaFile.write, happ, hpend]

/-- C6 witness: a concrete failing flush. -/
theorem write_error_keeps_pending_witness :
    (⟨none, false⟩ : FS).appendable = false
    ∧ (⟨[], [⟨"o".data, 1, []⟩]⟩ : MetaFile).new_information ≠ []
    ∧ MetaFile.write ⟨none, false⟩ ⟨[], [⟨"o".data, 1, []⟩]⟩
        = (Except.error errOpenAppend, ⟨[], [⟨"o".data, 1, []⟩]⟩, ⟨none, false⟩) :=
  ⟨by decide, by decide,
    write_error_keeps_pending ⟨none, false⟩ ⟨[], [⟨"o".data, 1, []⟩]⟩ rfl (by decide)⟩

/-- C7: flushing with nothing pending succeeds and leaves the file system
untouched: no bytes are appended and, the file never being opened, an absent
file is not created. -/
theorem write_nothing_pending_noop (fs : FS) (m : MetaFile)
    (h : m.new_information = []) :
    MetaFile.write fs m = (Except.ok (), m, fs) := by
  cases m
  simp_all [MetaFile.write]

/-- C7 witness: a no-op flush over an absent, unwritable file. -/
theorem write_nothing_pending_noop_witness :
    (⟨[], []⟩ : MetaFile).new_information = []
    ∧ MetaFile.write ⟨none, false⟩ ⟨[], []⟩ = (Except.ok (), ⟨[], []⟩, ⟨none, false⟩) :=
  ⟨rfl, write_nothing_pending_noop ⟨none, false⟩ ⟨[], []⟩ rfl⟩

theorem breakAtChar_not_mem (sep : Char) (l : List Char) (h : sep ∉ l) :
    breakAtChar sep l = none := by
  induction l with
  | nil => rfl
  | cons c cs ih =>
    have hc : c ≠ sep := fun he => h (he ▸ List.mem_cons_self c cs)
    have hr := ih (fun hm => h (List.mem_cons_of_mem c hm))
    simp only [breakAtChar, hr, if_neg hc]

theorem loadLine_no_context (d : Data) (l : List Char) (hl : l.head? ≠ some '@') :
    ∃ e, loadLine ⟨d, none, none⟩ l = Except.error e := by
  unfold loadLine
  rw [if_neg hl]
  cases hb : breakAtChar '=' l with
  | none => exact ⟨errNoEquals, by simp [pySplit1, hb]⟩
  | some p =>
    obtain ⟨a, b⟩ := p
    exact ⟨errNoHeader, by simp [pySplit1, hb]⟩

theorem loadLine_no_equals (st : LoadState) (l : List Char)
    (hl : l.head? ≠ some '@') (he : '=' ∉ l) :
    loadLine st l = Except.error errNoEquals := by
  unfold loadLine
  rw [if_neg hl]
  simp [pySplit1, breakAtChar_not_mem '=' l he]

theorem loadList_append (st : LoadState) (xs ys : List (List Char)) :
    loadList st (xs ++ ys) = (loadList st xs).bind fun st' => loadList st' ys := by
  induction xs generalizing st with
  | nil => simp [loadList, Except.bind]
  | cons x xs ih =>
    simp only [List.cons_append, loadList]
    cases loadLine st x with
    | ok st' => simp [Except.bind, ih]
    | error e => simp [Except.bind]

/-- C3: a record file whose first line is a property line (no leading
header) fails to load: construction raises and yields no store at all,
so in particular no partially populated one. -/
theorem init_property_first_errors (bl : Bool) (contents l : List Char) (ls : List (List Char))
    (hsplit : pyLines contents = l :: ls) (hl : l.head? ≠ some '@') :
    ∃ e, MetaFile.init ⟨some contents, bl⟩ = Except.error e := by
  obtain ⟨e, he⟩ := loadLine_no_context [] l hl
  refine ⟨e, ?_⟩
  have h1 : loadList ⟨[], none, none⟩ (l :: ls) = Except.error e := by
    simp only [loadList]
    rw [he]
  simp [MetaFile.init, load, hsplit, h1]

/-- C3 witness: a file that starts with a property line. -/
theorem init_property_first_errors_witness :
    pyLines ("k=v\n".data) = ("k=v".data) :: []
    ∧ ("k=v".data).head? ≠ some '@'
    ∧ ∃ e, MetaFile.init ⟨some ("k=v\n".data), true⟩ = Except.error e :=
  ⟨by decide, by decide,
    init_property_first_errors true ("k=v\n".data) ("k=v".data) [] (by decide) (by decide)⟩

/-- C9: a line after the headers that contains no equals sign, a blank line
included, makes the load raise: splitting it into a key and a value fails,
whatever came before on the file. -/
theorem init_no_equals_line_errors (bl : Bool) (contents l : List Char)
    (pre post : List (List Char))
    (hsplit : pyLines contents = pre ++ l :: post)
    (hhdr : ∃ p ∈ pre, p.head? = some '@')
    (hl : l.head? ≠ some '@') (he : '=' ∉ l) :
    ∃ e, MetaFile.init ⟨some contents, bl⟩ = Except.error e := by
  cases hres : loadList ⟨[], none, none⟩ pre with
  | error e =>
    refine ⟨e, ?_⟩
    simp [MetaFile.init, load, hsplit, loadList_append, hres, Except.bind]
  | ok st' =>
    refine ⟨errNoEquals, ?_⟩
    have h1 : loadList st' (l :: post) = Except.error errNoEquals := by
      simp only [loadList]
      rw [loadLine_no_equals st' l hl he]
    simp [MetaFile.init, load, hsplit, loadList_append, hres, Except.bind, h1]

/-- C9 witness: a blank line after a header line. -/
theorem init_no_equals_line_errors_witness :
    pyLines ("@o@1\n\n".data) = ["@o@1".data] ++ ([] : List Char) :: []
    ∧ (∃ p ∈ ["@o@1".data], p.head? = some '@')
    ∧ ([] : List Char).head? ≠ some '@'
    ∧ '=' ∉ ([] : List Char)
    ∧ ∃ e, MetaFile.init ⟨some ("@o@1\n\n".data), true⟩ = Except.error e :=
  ⟨by decide, by decide, by decide, by decide,
    init_no_equals_line_errors true ("@o@1\n\n".data) [] ["@o@1".data] []
      (by decide) (by decide) (by decide) (by decide)⟩

/-- C10: adding a batch with an empty properties mapping still registers the
object name in the entries (it appears in the files and list output, with no
keys, so its description lookup misses), and flushing it appends exactly one
header line followed by zero property lines. -/
theorem add_empty_batch (m : MetaFile) (fs : FS) (name : Filename) (t : Nat) (dflt : List Char)
    (hnew : pyGet m.data name = none) (hpend : m.new_information = [])
    (happ : fs.appendable = true) :
    name ∈ MetaFile.files (m.add_information ⟨name, t, []⟩)
    ∧ pyGet (m.add_information ⟨name, t, []⟩).data name = some []
    ∧ (name, dflt) ∈ mainList (m.add_information ⟨name, t, []⟩) dflt
    ∧ (MetaFile.write fs (m.add_information ⟨name, t, []⟩)).1 = Except.ok ()
    ∧ (MetaFile.write fs (m.add_information ⟨name, t, []⟩)).2.2.contents
        = some ((fs.contents.getD [])
            ++ (('@' :: name) ++ ('@' :: isoformat t) ++ ['\n'])) := by
  have hdata : (m.add_information ⟨name, t, []⟩).data = pySetdefault m.data name [] := rfl
  have hget : pyGet (m.add_information ⟨name, t, []⟩).data name = some [] := by
    rw [hdata, pyGet_pySetdefault_self, hnew]
    rfl
  have hmem : name ∈ MetaFile.files (m.add_information ⟨name, t, []⟩) := by
    rw [MetaFile.files, hdata]
    exact mem_map_fst_pySetdefault _ _ _
  have hdesc : MetaFile.get (m.add_information ⟨name, t, []⟩) name ("description".data) = none := by
    rw [MetaFile.get, hget]
    rfl
  have hlist : (name, dflt) ∈ mainList (m.add_information ⟨name, t, []⟩) dflt := by
    have hmm := List.mem_map_of_mem
      (f := fun file =>
        (file,
          match MetaFile.get (m.add_information ⟨name, t, []⟩) file ("description".data) with
          | some description => description.value
          | none => dflt)) hmem
    rw [mainList]
    simpa [hdesc] using hmm
  have hpend' : (m.add_information ⟨name, t, []⟩).new_information = [⟨name, t, []⟩] := by
    rw [MetaFile.add_information]
    simp [hpend]
  refine ⟨hmem, hget, hlist, ?_, ?_⟩
  · simp [MetaFile.write, hpend', happ]
  · simp [MetaFile.write, hpend', happ, serializeAll, serializeInfo]

/-- C10 witness: an empty batch added to a fresh store over an absent file. -/
theorem add_empty_batch_witness :
    pyGet ([] : Data) ("f".data) = none
    ∧ ("f".data ∈ MetaFile.files ((⟨[], []⟩ : MetaFile).add_information ⟨"f".data, 3, []⟩)
      ∧ pyGet ((⟨[], []⟩ : MetaFile).add_information ⟨"f".data, 3, []⟩).data ("f".data) = some []
      ∧ ("f".data, "d".data)
          ∈ mainList ((⟨[], []⟩ : MetaFile).add_information ⟨"f".data, 3, []⟩) ("d".data)
      ∧ (MetaFile.write ⟨none, true⟩
            ((⟨[], []⟩ : MetaFile).add_information ⟨"f".data, 3, []⟩)).1 = Except.ok ()
      ∧ (MetaFile.write ⟨none, true⟩
            ((⟨[], []⟩ : MetaFile).add_information ⟨"f".data, 3, []⟩)).2.2.contents
          = some (((⟨none, true⟩ : FS).contents.getD [])
              ++ (('@' :: "f".data) ++ ('@' :: isoformat 3) ++ ['\n']))) :=
  ⟨rfl, add_empty_batch ⟨[], []⟩ ⟨none, true⟩ ("f".data) 3 ("d".data) rfl rfl rfl⟩

